import Mathlib

/-!
Verification of the search-and-report engine of the silverbullet-grep plug
(source: src/grep.ts). JavaScript strings are modelled as `List Char`;
`String.prototype.toLowerCase` is modelled as character-wise lowercasing.
The per-line pattern engine (`RegExp` + `matchAll` with the `g`/`gi` flags)
is modelled for fixed-string patterns: the regex built from
`escapeRegExp(pattern)` matches exactly the literal pattern, scanning
left to right for non-overlapping occurrences.
-/

/-- Models `pattern.toLowerCase()` (grep.ts line 82): character-wise lowercasing. -/
def jsToLowerCase (s : List Char) : List Char :=
  s.map Char.toLower

/-- Case folding done by the regex engine: with `ignoreCase` set, characters are
compared up to lowercasing; otherwise they are compared as they are. -/
def foldCase (ignoreCase : Bool) (c : Char) : Char :=
  if ignoreCase then c.toLower else c

/-- The pattern `pat` matches the text `s` at position `i`, under the engine's
case folding. -/
def matchesAt (ignoreCase : Bool) (pat s : List Char) (i : Nat) : Bool :=
  (pat.map (foldCase ignoreCase)).isPrefixOf ((s.drop i).map (foldCase ignoreCase))

/-- Models `context.matchAll(innerRegex)` (grep.ts line 165) for the non-empty
fixed-string pattern `p :: ps`: the start offsets of the leftmost
non-overlapping occurrences. `i` is the absolute offset of the head of the
remaining text, and `skip` counts positions still covered by the match last
emitted (after a match the scan resumes past it). -/
def scanSkip (ignoreCase : Bool) (p : Char) (ps : List Char) :
    List Char → Nat → Nat → List Nat
  | [], _, _ => []
  | _ :: rest, i, skip + 1 => scanSkip ignoreCase p ps rest (i + 1) skip
  | c :: rest, i, 0 =>
    if matchesAt ignoreCase (p :: ps) (c :: rest) 0 then
      i :: scanSkip ignoreCase p ps rest (i + 1) ps.length
    else
      scanSkip ignoreCase p ps rest (i + 1) 0

/-- Start offsets of all matches of the fixed-string pattern `p :: ps` in `ctx`. -/
def innerMatchAll (ignoreCase : Bool) (p : Char) (ps ctx : List Char) : List Nat :=
  scanSkip ignoreCase p ps ctx 0 0

/-- One concrete occurrence, as pushed at grep.ts line 177:
`{ lineNum, columnNum, context }` with the surrounded context. -/
structure Match where
  lineNum : Nat
  columnNum : Nat
  context : List Char
deriving DecidableEq, Repr

/-- Match Refiner for one hit line (grep.ts lines 165-178): one `Match` per
occurrence, with `columnNum = index + 1` and the context rebuilt as
`before ++ surroundLeft ++ matched ++ surroundRight ++ after`. -/
def refineLine (ignoreCase : Bool) (p : Char) (ps sl sr : List Char)
    (lineNum : Nat) (ctx : List Char) : List Match :=
  (innerMatchAll ignoreCase p ps ctx).map fun start =>
    { lineNum := lineNum
      columnNum := start + 1
      context := ctx.take start ++ sl ++ ((ctx.drop start).take (ps.length + 1))
        ++ sr ++ ctx.drop (start + (ps.length + 1)) }

/-- Models `normalizePath` (grep.ts lines 317-321): backslashes become forward
slashes, then a leading `./` is stripped. -/
def normalizePath (path : List Char) : List Char :=
  let forward := path.map fun c => if c = '\\' then '/' else c
  if ['.', '/'].isPrefixOf forward then forward.drop 2 else forward

/-- Models `page.substring(0, page.lastIndexOf("/") + 1)` (grep.ts line 147 and
lines 298, 309): everything up to and including the last slash, or empty when
there is no slash. -/
def folderPathOf (page : List Char) : List Char :=
  (page.reverse.dropWhile fun c => c != '/').reverse

/-- Models `shouldIgnoreFolder` (grep.ts lines 34-52). Both the folder path and
each ignore pattern are normalized; a pattern ending in `/*` excludes folders
starting with the pattern minus that suffix, any other pattern excludes only
the folder equal to it. A missing `ignoreFolders` list excludes nothing. -/
def shouldIgnoreFolder (folderPath : List Char)
    (ignoreFolders : Option (List (List Char))) : Bool :=
  match ignoreFolders with
  | none => false
  | some pats =>
    let normalizedPath := normalizePath folderPath
    pats.any fun ignorePattern =>
      let pattern := normalizePath ignorePattern
      if ['/', '*'].isSuffixOf pattern then
        (pattern.take (pattern.length - 2)).isPrefixOf normalizedPath
      else normalizedPath == pattern

/-- Folder exclusion exactly as the claim words it, with the ignore patterns
taken as given (not normalized): excluded iff the folder path equals a
pattern, or a pattern ends in `/*` and the folder path starts with the
pattern with the `/*` suffix stripped. Stated for comparison with
`shouldIgnoreFolder`. -/
def claimFolderExcluded (folderPath : List Char) (pats : List (List Char)) : Bool :=
  pats.any fun ignorePattern =>
    folderPath == ignorePattern ||
      (['/', '*'].isSuffixOf ignorePattern &&
        (ignorePattern.take (ignorePattern.length - 2)).isPrefixOf folderPath)

/-- Models `output.split("\n\n")` (grep.ts line 130). -/
def splitOnBlankLine : List Char → List (List Char)
  | [] => [[]]
  | '\n' :: '\n' :: rest => [] :: splitOnBlankLine rest
  | c :: rest =>
    match splitOnBlankLine rest with
    | [] => [[c]]
    | g :: gs => (c :: g) :: gs

/-- Models `fileOutput.split("\n")` (grep.ts line 140). -/
def splitOnNewline : List Char → List (List Char)
  | [] => [[]]
  | '\n' :: rest => [] :: splitOnNewline rest
  | c :: rest =>
    match splitOnNewline rest with
    | [] => [[c]]
    | g :: gs => (c :: g) :: gs

/-- Models `line.split(":")` (grep.ts lines 160-162). -/
def splitOnColon : List Char → List (List Char)
  | [] => [[]]
  | ':' :: rest => [] :: splitOnColon rest
  | c :: rest =>
    match splitOnColon rest with
    | [] => [[c]]
    | g :: gs => (c :: g) :: gs

/-- Models `parseInt` on a run of decimal digits. -/
def parseIntDigits (s : List Char) : Nat :=
  s.foldl (fun n c => n * 10 + (c.toNat - 48)) 0

/-- Models grep.ts lines 156-163: a line is a hit candidate iff it matches
`^(\d)+:(\d)+:`; the line number is parsed from the first field and the
context is the rest of the line after an offset computed from the parsed
number's decimal length and the second field's length (the source's HACK). -/
def parseHitLine (line : List Char) : Option (Nat × List Char) :=
  match splitOnColon line with
  | f0 :: f1 :: _ :: _ =>
    if !f0.isEmpty && !f1.isEmpty && f0.all Char.isDigit && f1.all Char.isDigit then
      let lineNum := parseIntDigits f0
      some (lineNum, line.drop ((Nat.repr lineNum).length + f1.length + 2))
    else none
  | _ => none

/-- Reserved name of the persisted result page (grep.ts line 6). -/
def resultPageSavedChars : List Char := "GREP RESULT".data

/-- Reserved name of the virtual result page (grep.ts line 7). -/
def resultPageVirtualChars : List Char := "GREP RESULT 🔍".data

/-- One entry of `fileMatches` (grep.ts line 180). -/
structure FileMatch where
  page : List Char
  matchList : List Match
deriving DecidableEq, Repr

/-- Models grep.ts lines 139-181 for one file group (already split into lines):
the first line must end in `.md`; its page name is normalized with the
extension stripped; groups in ignored folders and the two reserved result
pages are skipped; every remaining hit line contributes its refined matches. -/
def processLines (ignoreCase : Bool) (p : Char) (ps sl sr : List Char)
    (ig : Option (List (List Char))) : List (List Char) → Option FileMatch
  | [] => none
  | l0 :: rest =>
    if ".md".data.isSuffixOf l0 then
      let page := normalizePath (l0.take (l0.length - 3))
      if shouldIgnoreFolder (folderPathOf page) ig then none
      else if page = resultPageSavedChars then none
      else if page = resultPageVirtualChars then none
      else
        some { page := page
               matchList := rest.flatMap fun line =>
                 match parseHitLine line with
                 | none => []
                 | some (lineNum, context) =>
                   refineLine ignoreCase p ps sl sr lineNum context }
    else none

/-- Models grep.ts lines 130-181: split the external tool's output into file
groups and process each; the resulting list is `fileMatches`. -/
def processOutput (ignoreCase : Bool) (p : Char) (ps sl sr : List Char)
    (ig : Option (List (List Char))) (output : List Char) : List FileMatch :=
  (splitOnBlankLine output).filterMap
    (fun g => processLines ignoreCase p ps sl sr ig (splitOnNewline g))

/-- Stable insertion used to model `fileMatches.sort` (grep.ts lines 183-186):
the new element goes in front of the first element whose match count does not
exceed its own, so earlier elements stay first on ties. -/
def insertByCount (a : FileMatch) : List FileMatch → List FileMatch
  | [] => [a]
  | b :: rest =>
    if b.matchList.length ≤ a.matchList.length then a :: b :: rest
    else b :: insertByCount a rest

/-- Models the sort of `fileMatches` by the comparator negating the difference
of the two elements' match counts
(grep.ts lines 183-186): `Array.prototype.sort` is a stable sort, and its
comparator orders by descending match count; any stable sort for that
comparator computes the same list, here a stable insertion sort. -/
def sortFileMatches (l : List FileMatch) : List FileMatch :=
  l.foldr insertByCount []

/-- Surround configuration: absent, `false`, or an object with optional
`left`/`right` fields (grep.ts lines 12-15). -/
inductive SurroundCfg
  | unset
  | off
  | obj (left right : Option (List Char))
deriving DecidableEq

/-- The grep section of the space configuration (grep.ts lines 10-18). -/
structure GrepConfig where
  smartCase : Option Bool
  surround : SurroundCfg
  saveResults : Option Bool
  ignoreFolders : Option (List (List Char))
deriving DecidableEq

/-- Models grep.ts lines 63-64: smart case is on unless the configuration sets
`smartCase` to exactly `false`. -/
def resolveSmartCase (c : GrepConfig) : Bool :=
  match c.smartCase with
  | some false => false
  | _ => true

/-- Models grep.ts line 82: with smart case, the search is case-sensitive iff
the pattern differs from its lowercase form; without it, always case-sensitive. -/
def caseSensitive (c : GrepConfig) (pattern : List Char) : Bool :=
  if resolveSmartCase c then decide (jsToLowerCase pattern ≠ pattern) else true

/-- Models grep.ts lines 66-80: the surround markers default to `>>>`/`<<<`;
`surround: false` clears both; in an object form, a field overrides its
default only when it is a non-empty string (an empty string is falsy in
JavaScript, so the default is kept). -/
def resolveSurround : SurroundCfg → List Char × List Char
  | .unset => (">>>".data, "<<<".data)
  | .off => ([], [])
  | .obj left right =>
    ((match left with
      | some s => if s = [] then ">>>".data else s
      | none => ">>>".data),
     (match right with
      | some s => if s = [] then "<<<".data else s
      | none => "<<<".data))

/-- Models `escapeRegExp` (grep.ts lines 324-326): every regex metacharacter is
prefixed with a backslash. -/
def escapeRegExp (s : List Char) : List Char :=
  s.flatMap fun c =>
    if ['.', '*', '+', '?', '^', '$', '{', '}', '(', ')', '|', '[', ']', '\\'].contains c
    then ['\\', c] else [c]

/-- A JavaScript regular expression value: its source and its flags. -/
structure JsRegex where
  source : List Char
  flags : List Char
deriving DecidableEq

/-- A regex matches case-insensitively iff its flags contain `i`. -/
def JsRegex.ignoreCase (r : JsRegex) : Bool :=
  r.flags.contains 'i'

/-- Models `new RegExp(literal ? escapeRegExp(pattern) : pattern,
caseSensitive ? "g" : "gi")` (grep.ts lines 133-136). -/
def innerRegex (literal : Bool) (pattern : List Char) (cs : Bool) : JsRegex :=
  { source := if literal then escapeRegExp pattern else pattern
    flags := if cs then ['g'] else ['g', 'i'] }

/-- Models the `git grep` argument list (grep.ts lines 87-102). -/
def gitArgs (cs literal : Bool) (pattern folder : List Char) : List (List Char) :=
  ["-c".data, "core.quotePath=false".data, "grep".data, "--heading".data,
    "--break".data, "--line-number".data, "--column".data, "--no-color".data,
    "--no-index".data]
  ++ (if cs then [] else ["--ignore-case".data])
  ++ [(if literal then "--fixed-strings".data else "--extended-regexp".data),
      pattern, "--".data,
      folder ++ (if ['/'].isSuffixOf folder then [] else ['/']) ++ "*.md".data]

/-- The ranked document results of one search: the parsed, filtered and refined
`fileMatches`, sorted by descending match count (grep.ts lines 130-186). The
pattern is the non-empty list `p :: ps` (a Query's pattern is non-empty). -/
def grepReport (c : GrepConfig) (p : Char) (ps : List Char) (literal : Bool)
    (output : List Char) : List FileMatch :=
  let cs := caseSensitive c (p :: ps)
  let sur := resolveSurround c.surround
  sortFileMatches
    (processOutput (innerRegex literal (p :: ps) cs).ignoreCase p ps sur.1 sur.2
      c.ignoreFolders output)

/-- Outcome of one `grep` call: a user-facing notification and no report, or a
report (grep.ts lines 104-209). -/
inductive GrepOutcome
  | notified (message : List Char)
  | report (results : List FileMatch)
deriving DecidableEq

/-- The notification shown when the `git` invocation fails (grep.ts lines 115-118). -/
def errorNotification : List Char :=
  "Error running 'git' command, make sure Git is in PATH".data

/-- The notification shown when the search ran but produced no output
(grep.ts lines 108-110 and 123-125). -/
def noResultsNotification (literal : Bool) (pattern : List Char) : List Char :=
  (if literal then "Text".data else "Pattern".data)
    ++ " \"".data ++ pattern ++ "\" produced no results".data

/-- Models the control flow of `grep` around the external invocation
(grep.ts lines 84-127): a thrown invocation yields the error notification, a
falsy result or empty stdout yields the no-results notification, and only a
non-empty stdout yields a report. -/
def grepRun (c : GrepConfig) (p : Char) (ps : List Char) (literal : Bool)
    (shellResult : Except Unit (Option (List Char))) : GrepOutcome :=
  match shellResult with
  | .error _ => .notified errorNotification
  | .ok none => .notified (noResultsNotification literal (p :: ps))
  | .ok (some output) =>
    if output = [] then .notified (noResultsNotification literal (p :: ps))
    else .report (grepReport c p ps literal output)

/-- A search query as issued to `openGrep` (grep.ts lines 213-217). -/
structure Query where
  pattern : List Char
  literal : Bool
  folder : List Char
deriving DecidableEq, Repr

/-- Models `searchText` (grep.ts lines 279-285): a falsy prompt result is a
no-op; otherwise a literal whole-tree query is issued. -/
def searchText (promptResult : Option (List Char)) : Option Query :=
  match promptResult with
  | none => none
  | some pat => if pat = [] then none else some ⟨pat, true, ['.']⟩

/-- Models `searchRegex` (grep.ts lines 287-293). -/
def searchRegex (promptResult : Option (List Char)) : Option Query :=
  match promptResult with
  | none => none
  | some pat => if pat = [] then none else some ⟨pat, false, ['.']⟩

/-- Models `searchRegexInFolder` (grep.ts lines 295-304). -/
def searchRegexInFolder (currentPage : List Char) (promptResult : Option (List Char)) :
    Option Query :=
  let folderPath := folderPathOf currentPage
  match promptResult with
  | none => none
  | some pat =>
    if pat = [] then none
    else some ⟨pat, false, if folderPath ≠ [] then folderPath else ['.']⟩

/-- Models `searchTextInFolder` (grep.ts lines 306-315), faithfully to the
source: the call at line 314 passes `false` as the `literal` argument. -/
def searchTextInFolder (currentPage : List Char) (promptResult : Option (List Char)) :
    Option Query :=
  let folderPath := folderPathOf currentPage
  match promptResult with
  | none => none
  | some pat =>
    if pat = [] then none
    else some ⟨pat, false, if folderPath ≠ [] then folderPath else ['.']⟩

/-- The arguments stashed in the datastore for the lazy render
(grep.ts line 231). -/
structure StoredArgs where
  pattern : List Char
  literal : Bool
  folder : List Char

/-- Placeholder content when the replayed grep produced no text (grep.ts line 239). -/
def noResultsPlaceholder : List Char :=
  "Did not produce any results".data

/-- Placeholder content when the stored query is missing or replaying it throws
(grep.ts lines 244-247). -/
def malformedSessionText : List Char :=
  "Could not call grep implementation, make sure to only open \"".data
    ++ resultPageVirtualChars ++ "\" using Grep Plug commands".data

/-- Models `readFileGrepResult` (grep.ts lines 236-248): with no stored
arguments, reading `args.pattern` throws and is caught; a throwing grep
replay is caught; a falsy replay result keeps the default text; otherwise the
replayed report text is returned. -/
def readFileGrepResult (args : Option StoredArgs)
    (grepImpl : StoredArgs → Except Unit (Option (List Char))) : List Char :=
  match args with
  | none => malformedSessionText
  | some a =>
    match grepImpl a with
    | .error _ => malformedSessionText
    | .ok (some t) => t
    | .ok none => noResultsPlaceholder

/-! ## Helper lemmas -/

theorem isPrefixOf_length_le :
    ∀ {l₁ l₂ : List Char}, l₁.isPrefixOf l₂ = true → l₁.length ≤ l₂.length
  | [], _, _ => Nat.zero_le _
  | _ :: _, [], h => by simp [List.isPrefixOf] at h
  | a :: as, b :: bs, h => by
    simp only [List.isPrefixOf, Bool.and_eq_true] at h
    simpa using isPrefixOf_length_le h.2

theorem matchesAt_cons_succ (ci : Bool) (pat : List Char) (c : Char)
    (rest : List Char) (k : Nat) :
    matchesAt ci pat (c :: rest) (k + 1) = matchesAt ci pat rest k := by
  simp [matchesAt]

theorem matchesAt_fits {ci : Bool} {p : Char} {ps s : List Char} {i : Nat}
    (h : matchesAt ci (p :: ps) s i = true) : i + (ps.length + 1) ≤ s.length := by
  have h1 := isPrefixOf_length_le h
  simp only [List.length_map, List.length_cons, List.length_drop] at h1
  omega

theorem matchesAt_nil {ci : Bool} {p : Char} {ps : List Char} {k : Nat} :
    matchesAt ci (p :: ps) [] k = false := by
  simp [matchesAt, List.isPrefixOf]

/-! ## Lemmas about the match scan -/

theorem scanSkip_ge (ci : Bool) (p : Char) (ps : List Char) :
    ∀ (t : List Char) (i skip j : Nat),
      j ∈ scanSkip ci p ps t i skip → i + skip ≤ j := by
  intro t
  induction t with
  | nil => intro i skip j h; simp [scanSkip] at h
  | cons c rest ih =>
    intro i skip j h
    cases skip with
    | succ s =>
      have := ih (i + 1) s j (by simpa [scanSkip] using h)
      omega
    | zero =>
      simp only [scanSkip] at h
      split at h
      · rcases List.mem_cons.mp h with rfl | h'
        · omega
        · have := ih (i + 1) ps.length j h'; omega
      · have := ih (i + 1) 0 j h; omega

theorem scanSkip_sound (ci : Bool) (p : Char) (ps : List Char) :
    ∀ (t : List Char) (i skip j : Nat), j ∈ scanSkip ci p ps t i skip →
      i ≤ j ∧ matchesAt ci (p :: ps) t (j - i) = true := by
  intro t
  induction t with
  | nil => intro i skip j h; simp [scanSkip] at h
  | cons c rest ih =>
    intro i skip j h
    cases skip with
    | succ s =>
      obtain ⟨h1, h2⟩ := ih (i + 1) s j (by simpa [scanSkip] using h)
      refine ⟨by omega, ?_⟩
      have e : j - i = (j - (i + 1)) + 1 := by omega
      rw [e, matchesAt_cons_succ]
      exact h2
    | zero =>
      simp only [scanSkip] at h
      split at h
      next hm =>
        rcases List.mem_cons.mp h with rfl | h'
        · simpa using hm
        · obtain ⟨h1, h2⟩ := ih (i + 1) ps.length j h'
          refine ⟨by omega, ?_⟩
          have e : j - i = (j - (i + 1)) + 1 := by omega
          rw [e, matchesAt_cons_succ]
          exact h2
      next hm =>
        obtain ⟨h1, h2⟩ := ih (i + 1) 0 j h
        refine ⟨by omega, ?_⟩
        have e : j - i = (j - (i + 1)) + 1 := by omega
        rw [e, matchesAt_cons_succ]
        exact h2

theorem scanSkip_complete (ci : Bool) (p : Char) (ps : List Char) :
    ∀ (t : List Char) (i skip k : Nat), skip ≤ k →
      matchesAt ci (p :: ps) t k = true →
      ∃ j ∈ scanSkip ci p ps t i skip, j ≤ i + k ∧ i + k < j + (ps.length + 1) := by
  intro t
  induction t with
  | nil => intro i skip k _ hm; rw [matchesAt_nil] at hm; cases hm
  | cons c rest ih =>
    intro i skip k hsk hm
    cases skip with
    | succ s =>
      have hk : k ≠ 0 := by omega
      obtain ⟨k', rfl⟩ : ∃ k', k = k' + 1 := ⟨k - 1, by omega⟩
      rw [matchesAt_cons_succ] at hm
      obtain ⟨j, hj, hb1, hb2⟩ := ih (i + 1) s k' (by omega) hm
      exact ⟨j, by simpa [scanSkip] using hj, by omega, by omega⟩
    | zero =>
      simp only [scanSkip]
      split
      next hmatch =>
        by_cases hk : k < ps.length + 1
        · exact ⟨i, List.mem_cons_self _ _, by omega, by omega⟩
        · obtain ⟨k', rfl⟩ : ∃ k', k = k' + 1 := ⟨k - 1, by omega⟩
          rw [matchesAt_cons_succ] at hm
          obtain ⟨j, hj, hb1, hb2⟩ := ih (i + 1) ps.length k' (by omega) hm
          exact ⟨j, List.mem_cons_of_mem _ hj, by omega, by omega⟩
      next hmatch =>
        have hk : k ≠ 0 := by
          intro h0
          rw [h0] at hm
          exact hmatch hm
        obtain ⟨k', rfl⟩ : ∃ k', k = k' + 1 := ⟨k - 1, by omega⟩
        rw [matchesAt_cons_succ] at hm
        obtain ⟨j, hj, hb1, hb2⟩ := ih (i + 1) 0 k' (by omega) hm
        exact ⟨j, hj, by omega, by omega⟩

theorem scanSkip_chain (ci : Bool) (p : Char) (ps : List Char) :
    ∀ (t : List Char) (i skip : Nat),
      List.Chain' (fun a b => a + (ps.length + 1) ≤ b) (scanSkip ci p ps t i skip) := by
  intro t
  induction t with
  | nil => intro i skip; simp [scanSkip]
  | cons c rest ih =>
    intro i skip
    cases skip with
    | succ s => simpa [scanSkip] using ih (i + 1) s
    | zero =>
      simp only [scanSkip]
      split
      · refine List.chain'_cons'.mpr ⟨?_, ih (i + 1) ps.length⟩
        intro y hy
        have hmem := List.mem_of_mem_head? hy
        have := scanSkip_ge ci p ps rest (i + 1) ps.length y hmem
        omega
      · exact ih (i + 1) 0

/-! ## Claim theorems -/

/-- C2: for every hit line's context, re-scanning with the identically
configured engine yields one `Match` per non-overlapping occurrence of the
pattern: every produced `Match` sits at a genuine occurrence `start`, carries
`columnNumber = start + 1` and the context rebuilt as text before the
occurrence, left marker, the matched substring, right marker, text after the
occurrence; the matches are ordered with non-overlapping, strictly increasing
columns; and every occurrence of the pattern in the context overlaps exactly
one produced `Match`. -/
theorem matchRefinerPostcondition (ci : Bool) (p : Char) (ps sl sr ctx : List Char)
    (ln : Nat) :
    (∀ m ∈ refineLine ci p ps sl sr ln ctx, ∃ start,
        m.lineNum = ln ∧
        m.columnNum = start + 1 ∧
        matchesAt ci (p :: ps) ctx start = true ∧
        start + (p :: ps).length ≤ ctx.length ∧
        m.context = ctx.take start ++ sl ++ ((ctx.drop start).take (p :: ps).length)
          ++ sr ++ ctx.drop (start + (p :: ps).length))
  ∧ List.Chain' (fun a b => a.columnNum + (p :: ps).length ≤ b.columnNum)
      (refineLine ci p ps sl sr ln ctx)
  ∧ (∀ k, matchesAt ci (p :: ps) ctx k = true →
      ∃ m ∈ refineLine ci p ps sl sr ln ctx,
        m.columnNum ≤ k + 1 ∧ k + 1 < m.columnNum + (p :: ps).length) := by
  refine ⟨?_, ?_, ?_⟩
  · intro m hm
    rcases List.mem_map.mp hm with ⟨start, hstart, rfl⟩
    obtain ⟨_, hsound⟩ := scanSkip_sound ci p ps ctx 0 0 start hstart
    simp only [Nat.sub_zero] at hsound
    exact ⟨start, rfl, rfl, hsound, by simpa using matchesAt_fits hsound,
      by simp [List.length_cons]⟩
  · have hc := scanSkip_chain ci p ps ctx 0 0
    unfold refineLine
    rw [List.chain'_map]
    refine hc.imp ?_
    intro a b hab
    simpa [List.length_cons] using by omega
  · intro k hk
    obtain ⟨j, hj, hb1, hb2⟩ := scanSkip_complete ci p ps ctx 0 0 k (Nat.zero_le k) hk
    refine ⟨_, List.mem_map_of_mem _ hj, ?_, ?_⟩
    · simpa using by omega
    · simpa [List.length_cons] using by omega

/-- C10: an empty string for `surround.left` or `surround.right` does not
disable that marker (the default `>>>` or `<<<` is used instead), and the two
markers are both empty exactly when `surround` is set to `false`. -/
theorem surroundEmptyStringDefaults (l r : Option (List Char)) (sc : SurroundCfg) :
    (resolveSurround (.obj (some []) r)).1 = ">>>".data
  ∧ (resolveSurround (.obj l (some []))).2 = "<<<".data
  ∧ ((resolveSurround sc).1 = [] ∧ (resolveSurround sc).2 = [] ↔ sc = .off) := by
  refine ⟨rfl, rfl, ?_, ?_⟩
  · rintro ⟨h1, h2⟩
    cases sc with
    | unset => exact absurd h1 (by decide)
    | off => rfl
    | obj left right =>
      exfalso
      cases left with
      | none =>
        have h1' : (">>>".data : List Char) = [] := h1
        exact absurd h1' (by decide)
      | some s =>
        have h1' : (if s = [] then (">>>".data : List Char) else s) = [] := h1
        by_cases hs : s = []
        · rw [if_pos hs] at h1'
          exact absurd h1' (by decide)
        · rw [if_neg hs] at h1'
          exact hs h1'
  · rintro rfl
    exact ⟨rfl, rfl⟩

/-- C9: a read of the virtual report page returns explanatory placeholder text
instead of propagating an error, both when no query was ever stored and when
replaying the stored query throws. -/
theorem lazyRenderErrorRecovery (impl : StoredArgs → Except Unit (Option (List Char)))
    (a : StoredArgs) :
    readFileGrepResult none impl = malformedSessionText
  ∧ (∀ e : Unit, impl a = .error e →
      readFileGrepResult (some a) impl = malformedSessionText) := by
  refine ⟨rfl, ?_⟩
  intro e he
  simp [readFileGrepResult, he]

/-- C7: a failing external invocation yields the user-facing error notification
and no report; a successful invocation with empty output yields the distinct
no-results notification and again no report. -/
theorem externalErrorHandling (c : GrepConfig) (p : Char) (ps : List Char)
    (literal : Bool) :
    grepRun c p ps literal (.error ()) = .notified errorNotification
  ∧ grepRun c p ps literal (.ok none) = .notified (noResultsNotification literal (p :: ps))
  ∧ grepRun c p ps literal (.ok (some []))
      = .notified (noResultsNotification literal (p :: ps))
  ∧ errorNotification ≠ noResultsNotification literal (p :: ps)
  ∧ (∀ msg fms, GrepOutcome.notified msg ≠ GrepOutcome.report fms) := by
  refine ⟨rfl, rfl, rfl, ?_, ?_⟩
  · intro h
    have hsuf : "\" produced no results".data <:+ noResultsNotification literal (p :: ps) := by
      unfold noResultsNotification
      exact List.suffix_append _ _
    rw [← h] at hsuf
    exact absurd hsuf (by decide)
  · intro msg fms h
    cases h

/-- C5 (code bug witnessed at the source): the "search literal text in current
folder" entry point issues its Query with `literal = false`, so the collected
literal text is interpreted as an extended regular expression (contrast
`searchText`, which issues `literal = true`); an empty or cancelled pattern is
a no-op for every entry point. -/
theorem searchTextInFolderIssuesRegexQuery :
    searchTextInFolder ("notes/a".data) (some ("x+".data))
      = some { pattern := "x+".data, literal := false, folder := "notes/".data }
  ∧ searchText (some ("x+".data))
      = some { pattern := "x+".data, literal := true, folder := ['.'] }
  ∧ searchText (some []) = none
  ∧ searchRegex (some []) = none
  ∧ searchTextInFolder ("notes/a".data) (some []) = none
  ∧ searchRegexInFolder ("notes/a".data) (some []) = none
  ∧ searchText none = none
  ∧ searchRegex none = none
  ∧ searchTextInFolder ("notes/a".data) none = none
  ∧ searchRegexInFolder ("notes/a".data) none = none := by
  decide

/-! ## Lemmas about the stable sort -/

theorem mem_insertByCount {a x : FileMatch} :
    ∀ {l : List FileMatch}, x ∈ insertByCount a l → x = a ∨ x ∈ l := by
  intro l
  induction l with
  | nil => intro h; simpa [insertByCount] using h
  | cons b rest ih =>
    intro h
    simp only [insertByCount] at h
    split at h
    · rcases List.mem_cons.mp h with rfl | h'
      · exact Or.inl rfl
      · exact Or.inr h'
    · rcases List.mem_cons.mp h with rfl | h'
      · exact Or.inr (List.mem_cons_self _ _)
      · rcases ih h' with rfl | h''
        · exact Or.inl rfl
        · exact Or.inr (List.mem_cons_of_mem _ h'')

theorem perm_insertByCount (a : FileMatch) :
    ∀ l : List FileMatch, List.Perm (insertByCount a l) (a :: l) := by
  intro l
  induction l with
  | nil => simp [insertByCount]
  | cons b rest ih =>
    simp only [insertByCount]
    split
    · exact List.Perm.refl _
    · exact (ih.cons b).trans (List.Perm.swap a b rest)

theorem pairwise_insertByCount {a : FileMatch} :
    ∀ {l : List FileMatch},
      List.Pairwise (fun x y => y.matchList.length ≤ x.matchList.length) l →
      List.Pairwise (fun x y => y.matchList.length ≤ x.matchList.length)
        (insertByCount a l) := by
  intro l
  induction l with
  | nil => intro _; simp [insertByCount]
  | cons b rest ih =>
    intro h
    rcases List.pairwise_cons.mp h with ⟨hb, hrest⟩
    simp only [insertByCount]
    split
    next hc =>
      refine List.pairwise_cons.mpr ⟨?_, h⟩
      intro y hy
      rcases List.mem_cons.mp hy with rfl | hy'
      · exact hc
      · exact le_trans (hb y hy') hc
    next hc =>
      refine List.pairwise_cons.mpr ⟨?_, ih hrest⟩
      intro y hy
      rcases mem_insertByCount hy with rfl | hy'
      · omega
      · exact hb y hy'

theorem filter_insertByCount (a : FileMatch) (n : Nat) :
    ∀ l : List FileMatch,
      (insertByCount a l).filter (fun fm => fm.matchList.length == n)
        = if a.matchList.length = n
          then a :: l.filter (fun fm => fm.matchList.length == n)
          else l.filter (fun fm => fm.matchList.length == n) := by
  intro l
  induction l with
  | nil =>
    by_cases h : a.matchList.length = n <;>
      simp [insertByCount, List.filter_cons, beq_iff_eq, h]
  | cons b rest ih =>
    simp only [insertByCount]
    split
    next hc =>
      by_cases h : a.matchList.length = n <;>
        simp [List.filter_cons, beq_iff_eq, h]
    next hc =>
      rw [List.filter_cons, List.filter_cons, ih]
      by_cases h : a.matchList.length = n
      · have hb : ¬ b.matchList.length = n := by omega
        simp [beq_iff_eq, h, hb]
      · simp [beq_iff_eq, h]

theorem sortFileMatches_pairwise (l : List FileMatch) :
    List.Pairwise (fun a b => b.matchList.length ≤ a.matchList.length)
      (sortFileMatches l) := by
  induction l with
  | nil => simp [sortFileMatches]
  | cons x rest ih => exact pairwise_insertByCount ih

theorem sortFileMatches_perm (l : List FileMatch) :
    List.Perm (sortFileMatches l) l := by
  induction l with
  | nil => simp [sortFileMatches]
  | cons x rest ih => exact (perm_insertByCount x (sortFileMatches rest)).trans (ih.cons x)

theorem sortFileMatches_filter (l : List FileMatch) (n : Nat) :
    (sortFileMatches l).filter (fun fm => fm.matchList.length == n)
      = l.filter (fun fm => fm.matchList.length == n) := by
  induction l with
  | nil => rfl
  | cons x rest ih =>
    show (insertByCount x (sortFileMatches rest)).filter _ = _
    rw [filter_insertByCount, List.filter_cons]
    by_cases h : x.matchList.length = n
    · simp [h, ih]
    · simp [h, ih]

/-- C3: the report's document results are ordered by descending match count,
the sort is a permutation of the discovered results, and among documents with
any fixed match count the discovery order is preserved (stable tie-break). -/
theorem rankingDescendingStable (l : List FileMatch) :
    List.Pairwise (fun a b => b.matchList.length ≤ a.matchList.length)
      (sortFileMatches l)
  ∧ List.Perm (sortFileMatches l) l
  ∧ ∀ n, (sortFileMatches l).filter (fun fm => fm.matchList.length == n)
      = l.filter (fun fm => fm.matchList.length == n) :=
  ⟨sortFileMatches_pairwise l, sortFileMatches_perm l, sortFileMatches_filter l⟩

/-! ## Lemmas about parsing and filtering of the external output -/

theorem take_isPrefixOf :
    ∀ (l : List Char) (n : Nat), (l.take n).isPrefixOf l = true := by
  intro l
  induction l with
  | nil => intro n; cases n <;> rfl
  | cons a t ih =>
    intro n
    cases n with
    | zero => rfl
    | succ m => simpa [List.take, List.isPrefixOf] using ih m

theorem processLines_some {ci : Bool} {p : Char} {ps sl sr : List Char}
    {ig : Option (List (List Char))} {lines : List (List Char)} {fm : FileMatch}
    (h : processLines ci p ps sl sr ig lines = some fm) :
    fm.page ≠ resultPageSavedChars ∧ fm.page ≠ resultPageVirtualChars ∧
      shouldIgnoreFolder (folderPathOf fm.page) ig = false := by
  cases lines with
  | nil => simp [processLines] at h
  | cons l0 rest =>
    simp only [processLines] at h
    split at h
    · split at h
      next hig => cases h
      next hig =>
        split at h
        next hsaved => cases h
        next hsaved =>
          split at h
          next hvirtual => cases h
          next hvirtual =>
            cases h
            exact ⟨hsaved, hvirtual, Bool.not_eq_true _ ▸ hig⟩
    · cases h

/-- C8: the two reserved report-document names never appear as document results,
neither among the parsed matches nor in the sorted report, whatever the
external tool's output contains. -/
theorem reservedPagesExcluded (c : GrepConfig) (ci : Bool) (p : Char)
    (ps sl sr : List Char) (ig : Option (List (List Char))) (literal : Bool)
    (output : List Char) :
    (∀ fm ∈ processOutput ci p ps sl sr ig output,
      fm.page ≠ resultPageSavedChars ∧ fm.page ≠ resultPageVirtualChars)
  ∧ (∀ fm ∈ grepReport c p ps literal output,
      fm.page ≠ resultPageSavedChars ∧ fm.page ≠ resultPageVirtualChars) := by
  constructor
  · intro fm hm
    obtain ⟨g, -, hg⟩ := List.mem_filterMap.mp hm
    exact ⟨(processLines_some hg).1, (processLines_some hg).2.1⟩
  · intro fm hm
    have hm' : fm ∈ processOutput (innerRegex literal (p :: ps)
        (caseSensitive c (p :: ps))).ignoreCase p ps
        (resolveSurround c.surround).1 (resolveSurround c.surround).2
        c.ignoreFolders output :=
      (sortFileMatches_perm _).mem_iff.mp hm
    obtain ⟨g, -, hg⟩ := List.mem_filterMap.mp hm'
    exact ⟨(processLines_some hg).1, (processLines_some hg).2.1⟩

/-- C4 counterexample: the claim's folder-exclusion predicate, read with the
ignore patterns taken verbatim, disagrees with the code on the pattern
`./notes/`: the code normalizes the pattern (stripping the leading `./`) and
excludes the folder `notes/`, while the claim's wording does not. -/
theorem folderFilterClaimCounterexample :
    shouldIgnoreFolder ("notes/".data) (some [("./notes/".data)]) = true
  ∧ claimFolderExcluded ("notes/".data) [("./notes/".data)] = false := by
  decide

/-- C4 as amended: the folder is excluded iff some ignore pattern, after the
same normalization applied to the folder path (backslashes to forward
slashes, leading `./` stripped), equals the normalized folder path or ends in
`/*` and is, minus that suffix, a prefix of the normalized folder path; with
no configured list nothing is excluded; and excluded documents never appear
among the document results. -/
theorem folderFilterNormalized (fp : List Char) (pats : List (List Char))
    (ci : Bool) (p : Char) (ps sl sr : List Char) (ig : Option (List (List Char)))
    (output : List Char) :
    (shouldIgnoreFolder fp (some pats) = true ↔
      ∃ ip ∈ pats, normalizePath fp = normalizePath ip ∨
        (['/', '*'].isSuffixOf (normalizePath ip) = true ∧
          ((normalizePath ip).take ((normalizePath ip).length - 2)).isPrefixOf
            (normalizePath fp) = true))
  ∧ shouldIgnoreFolder fp none = false
  ∧ (∀ fm ∈ processOutput ci p ps sl sr ig output,
      shouldIgnoreFolder (folderPathOf fm.page) ig = false) := by
  refine ⟨?_, rfl, ?_⟩
  · simp only [shouldIgnoreFolder, List.any_eq_true]
    constructor
    · rintro ⟨ip, hip, hf⟩
      refine ⟨ip, hip, ?_⟩
      split at hf
      next hw => exact Or.inr ⟨hw, hf⟩
      next hw => exact Or.inl (beq_iff_eq.mp hf)
    · rintro ⟨ip, hip, hcase⟩
      refine ⟨ip, hip, ?_⟩
      split
      next hw =>
        rcases hcase with heq | ⟨-, hpre⟩
        · rw [heq]
          exact take_isPrefixOf _ _
        · exact hpre
      next hw =>
        rcases hcase with heq | ⟨hw', -⟩
        · exact beq_iff_eq.mpr heq
        · exact absurd hw' hw
  · intro fm hm
    obtain ⟨g, -, hg⟩ := List.mem_filterMap.mp hm
    exact (processLines_some hg).2.2

/-- C6 counterexample: an external hit whose context contains no occurrence of
the pattern under the precise engine still yields a `DocumentResult` in the
report, with zero matches: searching case-sensitively for `Q` while the tool
reports a hit line with context `xyz` produces the document `a` with an empty
match list. -/
theorem reportZeroMatchDocument :
    grepReport (GrepConfig.mk none SurroundCfg.unset none none) 'Q' [] true
        ("a.md\n1:1:xyz".data)
      = [{ page := "a".data, matchList := [] }] := by
  decide

/-- C6 as amended: every accepted document group (first line ending in `.md`,
folder not ignored, page not one of the reserved result pages) yields a
`DocumentResult`, whose matches are exactly the refined occurrences of its
hit lines — also when that refinement produces no matches at all, so a
document with zero occurrences still appears in the report. -/
theorem documentResultPresence (ci : Bool) (p : Char) (ps sl sr : List Char)
    (ig : Option (List (List Char))) (l0 : List Char) (body : List (List Char))
    (h1 : ".md".data.isSuffixOf l0 = true)
    (h2 : shouldIgnoreFolder (folderPathOf (normalizePath (l0.take (l0.length - 3)))) ig
      = false)
    (h3 : normalizePath (l0.take (l0.length - 3)) ≠ resultPageSavedChars)
    (h4 : normalizePath (l0.take (l0.length - 3)) ≠ resultPageVirtualChars) :
    processLines ci p ps sl sr ig (l0 :: body)
      = some { page := normalizePath (l0.take (l0.length - 3))
               matchList := body.flatMap fun line =>
                 match parseHitLine line with
                 | none => []
                 | some (lineNum, context) =>
                   refineLine ci p ps sl sr lineNum context } := by
  simp [processLines, h1, h2, h3, h4]

/-- C6 amended-claim witness: a group whose single hit line has no occurrence
of the pattern still yields its document result, with an empty match list. -/
theorem documentResultPresenceWitness :
    processLines false 'Q' [] (">>>".data) ("<<<".data) none
      ["b.md".data, "7:1:xyz".data]
      = some { page := "b".data, matchList := [] } := by
  rw [documentResultPresence false 'Q' [] (">>>".data) ("<<<".data) none
    ("b.md".data) [("7:1:xyz".data)] (by decide) (by decide) (by decide) (by decide)]
  decide

/-! ## Case sensitivity -/

theorem jsToLowerCase_eq_self_iff :
    ∀ l : List Char, jsToLowerCase l = l ↔ ∀ ch ∈ l, Char.toLower ch = ch := by
  intro l
  induction l with
  | nil => simp [jsToLowerCase]
  | cons c t ih =>
    simp only [jsToLowerCase, List.map_cons, List.cons.injEq, List.mem_cons]
    constructor
    · rintro ⟨h1, h2⟩ ch hch
      rcases hch with rfl | hch
      · exact h1
      · exact (ih.mp h2) ch hch
    · intro h
      exact ⟨h c (Or.inl rfl), ih.mpr fun ch hch => h ch (Or.inr hch)⟩

/-- C1: with smart case disabled the search is always case-sensitive; with it
enabled the search is case-sensitive exactly when the pattern differs from
its lowercase form, equivalently when it contains a character changed by
lowercasing; and the resolved sensitivity is what drives both the
`--ignore-case` flag of the external invocation and the `i` flag of the
per-line refinement regex. -/
theorem caseSensitivityResolution (c : GrepConfig) (pattern folder : List Char)
    (literal : Bool) :
    (resolveSmartCase c = false → caseSensitive c pattern = true)
  ∧ (resolveSmartCase c = true →
      (caseSensitive c pattern = true ↔ jsToLowerCase pattern ≠ pattern))
  ∧ (caseSensitive c pattern = true ↔
      (resolveSmartCase c = false ∨ ∃ ch ∈ pattern, Char.toLower ch ≠ ch))
  ∧ (pattern ≠ "--ignore-case".data →
      ("--ignore-case".data ∈ gitArgs (caseSensitive c pattern) literal pattern folder
        ↔ caseSensitive c pattern = false))
  ∧ (innerRegex literal pattern (caseSensitive c pattern)).ignoreCase
      = !(caseSensitive c pattern) := by
  refine ⟨?_, ?_, ?_, ?_, ?_⟩
  · intro h
    simp [caseSensitive, h]
  · intro h
    simp [caseSensitive, h]
  · cases hsc : resolveSmartCase c
    · simp [caseSensitive, hsc]
    · have hcs : caseSensitive c pattern = decide (jsToLowerCase pattern ≠ pattern) := by
        simp [caseSensitive, hsc]
      rw [hcs, decide_eq_true_iff, Ne, jsToLowerCase_eq_self_iff]
      simp [hsc]
  · intro hp
    constructor
    · intro hmem
      by_contra hcs
      rw [Bool.not_eq_false] at hcs
      rw [hcs] at hmem
      simp only [gitArgs, if_true] at hmem
      rcases List.mem_append.mp hmem with h | h
      · rcases List.mem_append.mp h with h' | h'
        · exact absurd h' (by decide)
        · simp at h'
      · rcases List.mem_cons.mp h with h' | h'
        · cases literal
          · rw [if_neg (by simp)] at h'
            exact absurd h' (by decide)
          · rw [if_pos rfl] at h'
            exact absurd h' (by decide)
        · rcases List.mem_cons.mp h' with h'' | h''
          · exact hp h''.symm
          · rcases List.mem_cons.mp h'' with h3 | h3
            · exact absurd h3 (by decide)
            · rcases List.mem_cons.mp h3 with h4 | h4
              · have hs : ['*', '.', 'm', 'd'] <:+
                    ['-', '-', 'i', 'g', 'n', 'o', 'r', 'e', '-', 'c', 'a', 's', 'e'] := by
                  rw [h4]
                  exact List.suffix_append _ _
                exact absurd hs (by decide)
              · simp at h4
    · intro hcs
      rw [hcs]
      simp [gitArgs]
  · cases hcs : caseSensitive c pattern <;> rfl

/-! ## Scenario checks from the specification -/

/-- Scenario: all-lowercase pattern `todo`, smart case on: both the lowercase
and the uppercase occurrence match, with the expected columns and surrounded
contexts. -/
theorem scenario_lowercase_smartcase :
    grepReport (GrepConfig.mk none SurroundCfg.unset none none) 't' ("odo".data) true
        ("notes/a.md\n1:3:a todo item\n2:9:another TODO here\n".data)
      = [FileMatch.mk ("notes/a".data)
          [Match.mk 1 3 ("a >>>todo<<< item".data),
            Match.mk 2 9 ("another >>>TODO<<< here".data)]] := by
  decide

/-- Scenario: pattern `TODO` contains uppercase, smart case on: the search is
case-sensitive, so only the uppercase occurrence matches. -/
theorem scenario_uppercase_smartcase :
    caseSensitive (GrepConfig.mk none SurroundCfg.unset none none) ("TODO".data) = true
  ∧ caseSensitive (GrepConfig.mk none SurroundCfg.unset none none) ("todo".data) = false
  ∧ grepReport (GrepConfig.mk none SurroundCfg.unset none none) 'T' ("ODO".data) true
        ("notes/a.md\n2:9:another TODO here\n".data)
      = [FileMatch.mk ("notes/a".data)
          [Match.mk 2 9 ("another >>>TODO<<< here".data)]] := by
  decide

/-- Scenario: `ignoreFolders: ["archive/*"]` excludes the `archive/` folder, so
a document group under it contributes nothing to the report. -/
theorem scenario_ignored_folder :
    shouldIgnoreFolder ("archive/".data) (some [("archive/*".data)]) = true
  ∧ grepReport (GrepConfig.mk none SurroundCfg.unset none
        (some [("archive/*".data)])) 'o' ("ld".data) true
        ("archive/old.md\n1:1:old stuff\n".data)
      = [] := by
  decide
